import Mathlib

set_option maxHeartbeats 1000000

/-!
Verification development for the synth-experiment signal-graph engine.

The Rust source is shallowly embedded: each `SignalTrait::sample`
implementation becomes a Lean function that threads its private mutable
state explicitly, `f64` values are modelled as exact reals or rationals,
`u64`/`usize` arithmetic is modelled on `Nat` with explicit `% 2 ^ 64`
wrapping where the source can overflow.
-/

/-- Sampling context (`SignalCtx` in `signal.rs`): a sample index and the
device sample rate, passed to every sampling call. -/
structure SignalCtx where
  sampleIndex : Nat
  sampleRate : Nat

/-- A concrete `SignalTrait<T>` implementation: one `sample` step, with the
node's private mutable state `σ` threaded explicitly. -/
def SigImpl (σ T : Type) : Type :=
  σ → SignalCtx → σ × T

/-- The node behind a `BufferedSignal<T>` in the `language` crate
(`BufferedSignalUnshared<T>` in `language/src/signal.rs`): the underlying
implementation state plus the memo cell `buffered_sample` and
`next_sample_index`.  All cloned handles of a `BufferedSignal` share this
node through `Rc<RefCell<...>>`, so a handle is identified with the node. -/
structure BufferedSignalUnshared (σ T : Type) where
  sigState : σ
  bufferedSample : Option T
  nextSampleIndex : Nat

/-- `BufferedSignalUnshared::sample` from `language/src/signal.rs` lines
36-51.  Returns the new node, the sampled value, and how many times the
underlying implementation's `sample` was invoked during the call. -/
def BufferedSignalUnshared.sample {σ T : Type} (step : SigImpl σ T)
    (node : BufferedSignalUnshared σ T) (ctx : SignalCtx) :
    BufferedSignalUnshared σ T × T × Nat :=
  if ctx.sampleIndex < node.nextSampleIndex then
    match node.bufferedSample with
    | some b => (node, b, 0)
    | none =>
      let r := step node.sigState ctx
      ({ node with sigState := r.1, bufferedSample := some r.2 }, r.2, 1)
  else
    let r := step node.sigState ctx
    ({ sigState := r.1, bufferedSample := some r.2,
       nextSampleIndex := ctx.sampleIndex + 1 }, r.2, 1)

/-- A `BufferedSignal<T>` handle in the `synth-language` crate
(`synth-language/src/signal.rs` lines 17-59): there the memo cell lives in
the handle itself, NOT in the shared `Rc` node; only the underlying
implementation is shared. -/
structure SynthBufferedSignal (T : Type) where
  bufferedSample : Option T
  nextSampleIndex : Nat
deriving DecidableEq

/-- `BufferedSignal::clone_ref` from `synth-language/src/signal.rs` lines
53-59: the clone copies the handle's memo cell (the shared implementation
state is aliased, which the caller of `synthSample` models by passing the
same `shared` state to both handles). -/
def SynthBufferedSignal.cloneRef {T : Type} (h : SynthBufferedSignal T) :
    SynthBufferedSignal T :=
  { bufferedSample := h.bufferedSample, nextSampleIndex := h.nextSampleIndex }

/-- `BufferedSignal::sample` from `synth-language/src/signal.rs` lines
40-51.  Takes the shared implementation state and one handle; returns the
new shared state, the new handle, the value, and the number of underlying
invocations.  Note that in the `ctx.sample_index < next_sample_index` branch
with an empty memo the source calls `sample_signal` through
`unwrap_or_else` without caching the result. -/
def synthSample {σ T : Type} (step : SigImpl σ T) (shared : σ)
    (h : SynthBufferedSignal T) (ctx : SignalCtx) :
    σ × SynthBufferedSignal T × T × Nat :=
  if ctx.sampleIndex < h.nextSampleIndex then
    match h.bufferedSample with
    | some b => (shared, h, b, 0)
    | none =>
      let r := step shared ctx
      (r.1, h, r.2, 1)
  else
    let r := step shared ctx
    (r.1, { bufferedSample := some r.2,
            nextSampleIndex := ctx.sampleIndex + 1 }, r.2, 1)

/-- A stateful underlying implementation used to observe double
evaluation: it returns its counter and increments it. -/
def counterStep : SigImpl Nat Nat :=
  fun s _ => (s + 1, s)

/-- A fresh handle as built by `BufferedSignal::new`: empty memo,
`next_sample_index = 0`. -/
def synthFreshHandle (T : Type) : SynthBufferedSignal T :=
  { bufferedSample := none, nextSampleIndex := 0 }

/-- A fresh `language`-crate node over the counter implementation. -/
def c1Node : BufferedSignalUnshared Nat Nat :=
  { sigState := 0, bufferedSample := none, nextSampleIndex := 0 }

theorem bufferedSample_lt_some {σ T : Type} (step : SigImpl σ T)
    (node : BufferedSignalUnshared σ T) (ctx : SignalCtx) (b : T)
    (h : ctx.sampleIndex < node.nextSampleIndex)
    (hb : node.bufferedSample = some b) :
    node.sample step ctx = (node, b, 0) := by
  simp [BufferedSignalUnshared.sample, h, hb]

theorem bufferedSample_ge {σ T : Type} (step : SigImpl σ T)
    (node : BufferedSignalUnshared σ T) (ctx : SignalCtx)
    (h : node.nextSampleIndex ≤ ctx.sampleIndex) :
    node.sample step ctx =
      ({ sigState := (step node.sigState ctx).1,
         bufferedSample := some (step node.sigState ctx).2,
         nextSampleIndex := ctx.sampleIndex + 1 },
       (step node.sigState ctx).2, 1) := by
  simp [BufferedSignalUnshared.sample, Nat.not_lt.mpr h]

/-- Characterization of the state left behind by one `sample` call on a
`language`-crate node: the memo holds the returned value and
`next_sample_index` exceeds the sampled index. -/
theorem bufferedSample_post {σ T : Type} (step : SigImpl σ T)
    (node : BufferedSignalUnshared σ T) (ctx : SignalCtx) :
    (node.sample step ctx).1.bufferedSample = some (node.sample step ctx).2.1 ∧
    ctx.sampleIndex < (node.sample step ctx).1.nextSampleIndex ∧
    (node.sample step ctx).1.nextSampleIndex ≤
      max node.nextSampleIndex (ctx.sampleIndex + 1) := by
  unfold BufferedSignalUnshared.sample
  by_cases h : ctx.sampleIndex < node.nextSampleIndex
  · cases hb : node.bufferedSample with
    | some b => simp [h, hb, Nat.le_max_left]
    | none => simp [h, hb, Nat.le_max_left]
  · simp [h, Nat.le_max_right]

/-- C1 (amended, the part that holds): for the `language` crate's
`BufferedSignal` the memo cell lives inside the single shared node, so
through any handle (all handles alias this node), re-sampling at the same
`sample_index` returns the identical cached value, invokes the underlying
implementation zero further times and leaves the node untouched, while
sampling at a strictly greater `sample_index` invokes the implementation
exactly once more and updates the cache.  The hypothesis
`next_sample_index ≤ sample_index + 1` holds for every reachable node
under the spec invariant that sample indices are non-decreasing. -/
theorem C1_language_memoization {σ T : Type} (step : SigImpl σ T)
    (node : BufferedSignalUnshared σ T) (ctx : SignalCtx)
    (hnext : node.nextSampleIndex ≤ ctx.sampleIndex + 1) :
    (((node.sample step ctx).1.sample step ctx).2.1
        = (node.sample step ctx).2.1) ∧
    (((node.sample step ctx).1.sample step ctx).2.2 = 0) ∧
    (((node.sample step ctx).1.sample step ctx).1 = (node.sample step ctx).1) ∧
    (∀ ctx2 : SignalCtx, ctx.sampleIndex < ctx2.sampleIndex →
      ((node.sample step ctx).1.sample step ctx2).2.2 = 1 ∧
      ((node.sample step ctx).1.sample step ctx2).1.bufferedSample
          = some ((node.sample step ctx).1.sample step ctx2).2.1 ∧
      ((node.sample step ctx).1.sample step ctx2).1.nextSampleIndex
          = ctx2.sampleIndex + 1) := by
  obtain ⟨hmemo, hlt, hle⟩ := bufferedSample_post step node ctx
  have hcached := bufferedSample_lt_some step ((node.sample step ctx).1) ctx
    ((node.sample step ctx).2.1) hlt hmemo
  refine ⟨by rw [hcached], by rw [hcached], by rw [hcached], ?_⟩
  intro ctx2 h2
  have hge : ((node.sample step ctx).1).nextSampleIndex ≤ ctx2.sampleIndex := by
    have : max node.nextSampleIndex (ctx.sampleIndex + 1) ≤ ctx2.sampleIndex :=
      max_le (le_trans hnext h2) h2
    exact le_trans hle this
  rw [bufferedSample_ge step _ ctx2 hge]
  exact ⟨rfl, rfl, rfl⟩

theorem C1_language_memoization_witness :
    c1Node.nextSampleIndex ≤ (SignalCtx.mk 0 44100).sampleIndex + 1 ∧
    ((c1Node.sample counterStep (SignalCtx.mk 0 44100)).1.sample counterStep
        (SignalCtx.mk 0 44100)).2.1
      = (c1Node.sample counterStep (SignalCtx.mk 0 44100)).2.1 ∧
    ((c1Node.sample counterStep (SignalCtx.mk 0 44100)).1.sample counterStep
        (SignalCtx.mk 1 44100)).2.2 = 1 :=
  ⟨by decide,
   (C1_language_memoization counterStep c1Node (SignalCtx.mk 0 44100)
      (by decide)).1,
   ((C1_language_memoization counterStep c1Node (SignalCtx.mk 0 44100)
      (by decide)).2.2.2 (SignalCtx.mk 1 44100) (by decide)).1⟩

/-- C1 counterexample: in the `synth-language` crate the memo cell is
per-handle (`clone_ref` copies it), so two handles of the SAME node (a
clone taken before the first sample, sharing the counter implementation
state) sampled at the same `sample_index 0` observe different values
(0 then 1) and invoke the underlying implementation twice in total,
refuting the claim as stated for this `BufferedSignal`. -/
theorem C1_counterexample :
    (SynthBufferedSignal.cloneRef (synthFreshHandle Nat) = synthFreshHandle Nat) ∧
    (synthSample counterStep 0 (synthFreshHandle Nat)
        (SignalCtx.mk 0 44100)).2.2.1 = 0 ∧
    (synthSample counterStep
        (synthSample counterStep 0 (synthFreshHandle Nat)
          (SignalCtx.mk 0 44100)).1
        (SynthBufferedSignal.cloneRef (synthFreshHandle Nat))
        (SignalCtx.mk 0 44100)).2.2.1 = 1 ∧
    (0 : Nat) ≠ 1 ∧
    (synthSample counterStep 0 (synthFreshHandle Nat)
        (SignalCtx.mk 0 44100)).2.2.2 +
      (synthSample counterStep
        (synthSample counterStep 0 (synthFreshHandle Nat)
          (SignalCtx.mk 0 44100)).1
        (SynthBufferedSignal.cloneRef (synthFreshHandle Nat))
        (SignalCtx.mk 0 44100)).2.2.2 = 2 := by
  decide

/-- `weighted_sum::Props::sample` from
`synth-language/src/synth_modules.rs` lines 101-118 (identical in
`language/src/synth_modules.rs`): the per-tick sampled (weight, signal)
pairs are modelled as a list of rational pairs. -/
def weightedSumSample (ws : List (ℚ × ℚ)) : ℚ :=
  let weightsSum := (ws.map fun p => p.1).sum
  if weightsSum = 0 then 0
  else (ws.map fun p => p.1 * p.2).sum / weightsSum

/-- C6: if the sum of the sampled weights is exactly zero the WeightedSum
output is exactly 0 (the division is short-circuited, so no undefined
value is produced); otherwise the output is the weighted sum of the
signals divided by the weight sum. -/
theorem C6_weighted_sum (ws : List (ℚ × ℚ)) :
    ((ws.map fun p => p.1).sum = 0 → weightedSumSample ws = 0) ∧
    ((ws.map fun p => p.1).sum ≠ 0 →
      weightedSumSample ws
          = (ws.map fun p => p.1 * p.2).sum / (ws.map fun p => p.1).sum ∧
      weightedSumSample ws * (ws.map fun p => p.1).sum
          = (ws.map fun p => p.1 * p.2).sum) := by
  constructor
  · intro h
    simp [weightedSumSample, h]
  · intro h
    constructor
    · simp [weightedSumSample, h]
    · simp only [weightedSumSample, h, if_neg h]
      exact div_mul_cancel₀ _ h

theorem C6_weighted_sum_witness :
    ([((0 : ℚ), 5), (0, 7)].map (fun p => p.1)).sum = 0 ∧
    weightedSumSample [((0 : ℚ), 5), (0, 7)] = 0 ∧
    ([((1 : ℚ), 3), (1, 5)].map (fun p => p.1)).sum ≠ 0 ∧
    weightedSumSample [((1 : ℚ), 3), (1, 5)]
      = ([((1 : ℚ), 3), (1, 5)].map (fun p => p.1 * p.2)).sum /
          ([((1 : ℚ), 3), (1, 5)].map (fun p => p.1)).sum :=
  ⟨by simp, (C6_weighted_sum _).1 (by simp), by simp,
   ((C6_weighted_sum _).2 (by simp)).1⟩

/-- `amplify::Props::sample` from `synth-language/src/synth_modules.rs`
lines 135-146 (identical in the `language` crate): the gain signal has
already been sampled to `g`; the input signal is a stateful process
`inputStep` whose state is only advanced when the gain passes the
`1/64` threshold test.  Returns (input state, output, number of times the
input signal was sampled). -/
def amplifySample {σ : Type} (inputStep : σ → σ × ℚ) (g : ℚ) (s : σ) :
    σ × ℚ × Nat :=
  if 1 / 64 < |g| then
    ((inputStep s).1, (inputStep s).2 * g, 1)
  else (s, 0, 0)

/-- C9: whenever the sampled gain satisfies `|gain| ≤ 1/64` the Amplify
node does not sample its input at all (the upstream state does not
advance and the output is exactly 0); when `|gain| > 1/64` the input is
sampled exactly once and the output is `input * gain`. -/
theorem C9_amplify {σ : Type} (inputStep : σ → σ × ℚ) (g : ℚ) (s : σ) :
    (|g| ≤ 1 / 64 → amplifySample inputStep g s = (s, 0, 0)) ∧
    (1 / 64 < |g| →
      amplifySample inputStep g s
        = ((inputStep s).1, (inputStep s).2 * g, 1)) := by
  constructor
  · intro h
    unfold amplifySample
    rw [if_neg (not_lt.mpr h)]
  · intro h
    unfold amplifySample
    rw [if_pos h]

theorem C9_amplify_witness :
    (|(1 : ℚ) / 64| ≤ 1 / 64 ∧
      amplifySample (fun n : Nat => (n + 1, (n : ℚ))) (1 / 64) 5 = (5, 0, 0)) ∧
    ((1 : ℚ) / 64 < |(1 : ℚ)| ∧
      amplifySample (fun n : Nat => (n + 1, (n : ℚ))) 1 5 = (6, 5, 1)) :=
  ⟨⟨by rw [abs_of_nonneg (by norm_num : (0 : ℚ) ≤ 1 / 64)],
    (C9_amplify _ _ _).1
      (by rw [abs_of_nonneg (by norm_num : (0 : ℚ) ≤ 1 / 64)])⟩,
   ⟨by rw [abs_one]; norm_num, by
      have h := (C9_amplify (fun n : Nat => (n + 1, (n : ℚ))) 1 5).2
        (by rw [abs_one]; norm_num)
      simpa using h⟩⟩

/-- State of the control-thread side of `SignalPlayer`
(`src/src/signal_player.rs`): the produced-samples cursor and the FIFO
channel to the audio callback, modelled as the list of samples sent so
far (each element corresponds to exactly one `send` call). -/
structure SignalPlayerState where
  sourceCursor : Nat
  channel : List ℚ
deriving DecidableEq

/-- `SignalPlayer::send_single_sample` (`signal_player.rs` lines 72-77):
one `send` call of the sample at the current source cursor, then the
cursor advances by one. -/
def sendSingleSample (sig : Nat → ℚ) (st : SignalPlayerState) :
    SignalPlayerState :=
  { sourceCursor := st.sourceCursor + 1,
    channel := st.channel ++ [sig st.sourceCursor] }

/-- The `while self.source_cursor < target_source_cursor` loop of
`SignalPlayer::send_signal` (`signal_player.rs` lines 79-85). -/
def sendSignalLoop (sig : Nat → ℚ) (target : Nat) (st : SignalPlayerState) :
    SignalPlayerState :=
  if _h : st.sourceCursor < target then
    sendSignalLoop sig target (sendSingleSample sig st)
  else st
termination_by target - st.sourceCursor
decreasing_by simp [sendSingleSample]; omega

/-- `SignalPlayer::send_signal`: reads `sink_cursor`, computes
`target = sink_cursor + target_padding` and produces until the source
cursor reaches the target. -/
def sendSignal (sig : Nat → ℚ) (sinkCursor targetPadding : Nat)
    (st : SignalPlayerState) : SignalPlayerState :=
  sendSignalLoop sig (sinkCursor + targetPadding) st

/-- Wrapping 64-bit addition (`u64` rig of `cpal-sample-player`). -/
def u64Add (a b : Nat) : Nat :=
  (a + b) % 2 ^ 64

/-- Wrapping 64-bit subtraction: `a - b` in `u64` arithmetic. -/
def u64Sub (a b : Nat) : Nat :=
  (a % 2 ^ 64 + 2 ^ 64 - b % 2 ^ 64) % 2 ^ 64

/-- `SamplePlayer::samples_behind` (`cpal-sample-player/src/lib.rs` lines
101-105): `(sink_cursor + buffer_padding) - source_cursor` computed in
`u64` arithmetic with no underflow guard. -/
def samplesBehind (sinkCursor bufferPadding sourceCursor : Nat) : Nat :=
  u64Sub (u64Add sinkCursor bufferPadding) sourceCursor

/-- State of `SamplePlayer`: produced-samples cursor and channel contents
(one element per `send`). -/
structure CpalPlayerState where
  sourceCursor : Nat
  channel : List ℚ
deriving DecidableEq

/-- `SamplePlayer::play_sample` (`cpal-sample-player/src/lib.rs` lines
94-99): one `send` call, then the source cursor advances by one. -/
def playSample (x : ℚ) (st : CpalPlayerState) : CpalPlayerState :=
  { sourceCursor := st.sourceCursor + 1, channel := st.channel ++ [x] }

/-- The `for _ in 0..k` loop of `SamplePlayer::play_stream`; `calls`
counts how many times the `stream` closure has been invoked so far. -/
def playStreamLoop (stream : Nat → ℚ) :
    Nat → Nat → CpalPlayerState → CpalPlayerState
  | 0, _, st => st
  | k + 1, calls, st =>
      playStreamLoop stream k (calls + 1) (playSample (stream calls) st)

/-- `SamplePlayer::play_stream` (`cpal-sample-player/src/lib.rs` lines
107-112): produces `samples_behind() / channels` samples. -/
def playStream (stream : Nat → ℚ) (sinkCursor bufferPadding channels : Nat)
    (st : CpalPlayerState) : CpalPlayerState :=
  playStreamLoop stream
    (samplesBehind sinkCursor bufferPadding st.sourceCursor / channels) 0 st

theorem map_range_shift (f : Nat → ℚ) (base n : Nat) :
    (List.range (n + 1)).map (fun k => f (base + k))
      = f base :: (List.range n).map (fun k => f (base + 1 + k)) := by
  have hfun : ∀ k ∈ List.range n,
      ((fun k => f (base + k)) ∘ Nat.succ) k = f (base + 1 + k) := by
    intro k _
    simp only [Function.comp_apply]
    congr 1
    omega
  rw [List.range_succ_eq_map, List.map_cons, List.map_map,
    List.map_congr_left hfun]
  simp

theorem sendSignalLoop_spec (sig : Nat → ℚ) (target : Nat) :
    ∀ (fuel : Nat) (st : SignalPlayerState),
      target - st.sourceCursor = fuel → st.sourceCursor ≤ target →
      (sendSignalLoop sig target st).sourceCursor = target ∧
      (sendSignalLoop sig target st).channel
        = st.channel ++ (List.range (target - st.sourceCursor)).map
            (fun k => sig (st.sourceCursor + k)) := by
  intro fuel
  induction fuel with
  | zero =>
    intro st h0 hle
    have hst : st.sourceCursor = target := by omega
    rw [sendSignalLoop]
    simp [hst]
  | succ n ih =>
    intro st h0 hle
    have hlt : st.sourceCursor < target := by omega
    rw [sendSignalLoop, dif_pos hlt]
    obtain ⟨ih1, ih2⟩ := ih (sendSingleSample sig st)
      (by simp [sendSingleSample]; omega)
      (by simp [sendSingleSample]; omega)
    refine ⟨ih1, ?_⟩
    rw [ih2]
    simp only [sendSingleSample, List.append_assoc, List.singleton_append]
    have hrange : target - st.sourceCursor = n + 1 := h0
    have hrange2 : target - (st.sourceCursor + 1) = n := by omega
    rw [hrange, hrange2, map_range_shift]

theorem playStreamLoop_spec (stream : Nat → ℚ) :
    ∀ (k calls : Nat) (st : CpalPlayerState),
      (playStreamLoop stream k calls st).sourceCursor = st.sourceCursor + k ∧
      (playStreamLoop stream k calls st).channel
        = st.channel ++ (List.range k).map (fun i => stream (calls + i)) := by
  intro k
  induction k with
  | zero => intro calls st; simp [playStreamLoop]
  | succ n ih =>
    intro calls st
    obtain ⟨ih1, ih2⟩ := ih (calls + 1) (playSample (stream calls) st)
    constructor
    · rw [playStreamLoop, ih1]; simp [playSample]; omega
    · rw [playStreamLoop, ih2, map_range_shift]
      simp [playSample]

theorem u64Sub_of_le (a b : Nat) (hb : b ≤ a) (ha : a < 2 ^ 64) :
    u64Sub a b = a - b := by
  unfold u64Sub
  rw [Nat.mod_eq_of_lt ha, Nat.mod_eq_of_lt (lt_of_le_of_lt hb ha)]
  have h1 : a + 2 ^ 64 - b = (a - b) + 2 ^ 64 := by omega
  rw [h1, Nat.add_mod_right, Nat.mod_eq_of_lt (by omega)]

theorem samplesBehind_of_le (sinkCursor bufferPadding sourceCursor : Nat)
    (hle : sourceCursor ≤ sinkCursor + bufferPadding)
    (hbound : sinkCursor + bufferPadding < 2 ^ 64) :
    samplesBehind sinkCursor bufferPadding sourceCursor
      = sinkCursor + bufferPadding - sourceCursor := by
  unfold samplesBehind u64Add
  rw [Nat.mod_eq_of_lt hbound]
  exact u64Sub_of_le _ _ hle hbound

/-- C2 (amended): for one `send_signal` call with the sink cursor read as
`sinkCursor`, the control thread produces samples until `source_cursor`
equals `target = sink_cursor + padding` exactly, appending each produced
sample to the channel by exactly one `send` call; `play_stream` instead
produces `⌊samples_behind / channels⌋` samples (reaching the target only
when `channels` divides the deficit), again one `send` per sample, and in
both cases the source cursor never exceeds `sink_cursor + padding` after
the call. -/
theorem C2_backpressure (sig stream : Nat → ℚ)
    (sinkCursor targetPadding channels : Nat)
    (st : SignalPlayerState) (cst : CpalPlayerState)
    (h1 : st.sourceCursor ≤ sinkCursor + targetPadding)
    (h2 : cst.sourceCursor ≤ sinkCursor + targetPadding)
    (hbound : sinkCursor + targetPadding < 2 ^ 64) :
    ((sendSignal sig sinkCursor targetPadding st).sourceCursor
        = sinkCursor + targetPadding) ∧
    ((sendSignal sig sinkCursor targetPadding st).channel
        = st.channel ++
            (List.range (sinkCursor + targetPadding - st.sourceCursor)).map
              (fun k => sig (st.sourceCursor + k))) ∧
    ((sendSignal sig sinkCursor targetPadding st).channel.length
        = st.channel.length +
            ((sendSignal sig sinkCursor targetPadding st).sourceCursor
              - st.sourceCursor)) ∧
    ((playStream stream sinkCursor targetPadding channels cst).sourceCursor
        = cst.sourceCursor
            + (sinkCursor + targetPadding - cst.sourceCursor) / channels) ∧
    ((playStream stream sinkCursor targetPadding channels cst).sourceCursor
        ≤ sinkCursor + targetPadding) ∧
    ((playStream stream sinkCursor targetPadding channels cst).channel.length
        = cst.channel.length +
            ((playStream stream sinkCursor targetPadding channels
                cst).sourceCursor - cst.sourceCursor)) := by
  obtain ⟨hs1, hs2⟩ := sendSignalLoop_spec sig (sinkCursor + targetPadding)
    (sinkCursor + targetPadding - st.sourceCursor) st rfl h1
  have hsb := samplesBehind_of_le sinkCursor targetPadding cst.sourceCursor h2
    hbound
  obtain ⟨hp1, hp2⟩ := playStreamLoop_spec stream
    (samplesBehind sinkCursor targetPadding cst.sourceCursor / channels) 0 cst
  refine ⟨hs1, hs2, ?_, ?_, ?_, ?_⟩
  · unfold sendSignal
    rw [hs1, hs2]
    simp
  · rw [playStream, hp1, hsb]
  · rw [playStream, hp1, hsb]
    have := Nat.div_le_self (sinkCursor + targetPadding - cst.sourceCursor)
      channels
    omega
  · rw [playStream, hp1, hp2]
    simp

/-- C2 counterexample to the claim as stated: a `play_stream` call with
`channels = 2`, `sink_cursor = 0`, `padding = 3` and `source_cursor = 0`
produces only `⌊3/2⌋ = 1` sample, so the source cursor ends at 1 and does
NOT reach the target `sink_cursor + padding = 3`. -/
theorem C2_counterexample :
    samplesBehind 0 3 0 = 3 ∧
    (playStream (fun _ => (0 : ℚ)) 0 3 2
        { sourceCursor := 0, channel := [] }).sourceCursor = 1 ∧
    (1 : Nat) ≠ 0 + 3 := by
  refine ⟨?_, ?_, by decide⟩
  · rw [samplesBehind_of_le] <;> norm_num
  · rw [playStream]
    have h : samplesBehind 0 3 0 = 3 := by
      rw [samplesBehind_of_le] <;> norm_num
    rw [show ({ sourceCursor := 0, channel := [] } :
        CpalPlayerState).sourceCursor = 0 from rfl, h]
    norm_num [playStreamLoop, playSample]

theorem C2_backpressure_witness :
    (2 : Nat) ≤ 1 + 3 ∧ (1 : Nat) + 3 < 2 ^ 64 ∧
    (sendSignal (fun _ => (0 : ℚ)) 1 3
        { sourceCursor := 2, channel := [] }).sourceCursor = 1 + 3 ∧
    (playStream (fun _ => (0 : ℚ)) 1 3 2
        { sourceCursor := 2, channel := [] }).sourceCursor ≤ 1 + 3 :=
  ⟨by norm_num, by norm_num,
   (C2_backpressure (fun _ => 0) (fun _ => 0) 1 3 2
      { sourceCursor := 2, channel := [] }
      { sourceCursor := 2, channel := [] }
      (by norm_num) (by norm_num) (by norm_num)).1,
   (C2_backpressure (fun _ => 0) (fun _ => 0) 1 3 2
      { sourceCursor := 2, channel := [] }
      { sourceCursor := 2, channel := [] }
      (by norm_num) (by norm_num) (by norm_num)).2.2.2.2.1⟩

/-- C10: `samples_behind` computes `(sink_cursor + buffer_padding) -
source_cursor` in `u64` arithmetic with no underflow guard; under the
precondition `source_cursor ≤ sink_cursor + buffer_padding` the
subtraction is exact, the precondition is preserved by `play_stream` when
the sink cursor only grows and the padding is unchanged, and shrinking
`buffer_padding` (via `buffer_padding_mut`) can break the precondition so
the subtraction underflows (wraps to an enormous value): from the valid
state `sink = 0, padding = 100, source = 100`, setting the padding to 0
makes `samples_behind` return `2 ^ 64 - 100`. -/
theorem C10_samples_behind_safety (stream : Nat → ℚ)
    (sinkCursor bufferPadding sink2 channels : Nat) (cst : CpalPlayerState)
    (hinv : cst.sourceCursor ≤ sinkCursor + bufferPadding)
    (hmono : sinkCursor ≤ sink2)
    (hbound : sink2 + bufferPadding < 2 ^ 64) :
    (samplesBehind sink2 bufferPadding cst.sourceCursor
        = sink2 + bufferPadding - cst.sourceCursor) ∧
    ((playStream stream sink2 bufferPadding channels cst).sourceCursor
        ≤ sink2 + bufferPadding) ∧
    samplesBehind 0 100 100 = 0 ∧
    samplesBehind 0 0 100 = 2 ^ 64 - 100 ∧
    2 ^ 64 - 100 ≠ (0 : Nat) := by
  have hle : cst.sourceCursor ≤ sink2 + bufferPadding := by omega
  have hsb := samplesBehind_of_le sink2 bufferPadding cst.sourceCursor hle
    hbound
  obtain ⟨hp1, _⟩ := playStreamLoop_spec stream
    (samplesBehind sink2 bufferPadding cst.sourceCursor / channels) 0 cst
  refine ⟨hsb, ?_, ?_, ?_, by norm_num⟩
  · rw [playStream, hp1, hsb]
    have := Nat.div_le_self (sink2 + bufferPadding - cst.sourceCursor)
      channels
    omega
  · rw [samplesBehind_of_le] <;> norm_num
  · unfold samplesBehind u64Add u64Sub
    have h1 : (0 + 0) % 2 ^ 64 = 0 := by norm_num
    rw [h1]
    have h2 : (100 : Nat) % 2 ^ 64 = 100 := by norm_num
    have h3 : (0 : Nat) % 2 ^ 64 = 0 := by norm_num
    rw [h2, h3]
    rw [Nat.mod_eq_of_lt (by norm_num)]
    omega

theorem C10_samples_behind_safety_witness :
    (2 : Nat) ≤ 1 + 3 ∧ (1 : Nat) ≤ 1 ∧ (1 : Nat) + 3 < 2 ^ 64 ∧
    samplesBehind 1 3 2 = 1 + 3 - 2 ∧
    samplesBehind 0 0 100 = 2 ^ 64 - 100 :=
  ⟨by norm_num, le_refl 1, by norm_num,
   (C10_samples_behind_safety (fun _ => 0) 1 3 1 2
      { sourceCursor := 2, channel := [] }
      (by norm_num) (le_refl 1) (by norm_num)).1,
   (C10_samples_behind_safety (fun _ => 0) 1 3 1 2
      { sourceCursor := 2, channel := [] }
      (by norm_num) (le_refl 1) (by norm_num)).2.2.2.1⟩

/-- One `synth_sequencer::Step` (`language/src/synth_modules.rs` lines
652-655), with the frequency and period signals already sampled for the
current tick. -/
structure SeqStep where
  frequencyHz : ℚ
  periodSeconds : ℚ
deriving DecidableEq

/-- Default used for out-of-range indexing; under the index invariant
proved below the sequencer never reads it (the Rust source would panic
instead). -/
def defaultSeqStep : SeqStep :=
  { frequencyHz := 0, periodSeconds := 0 }

/-- Private state of `synth_sequencer::Signal` (`language` crate lines
662-666). -/
structure SeqState where
  stepIndex : Nat
  gateRemainSeconds : ℚ
deriving DecidableEq

/-- `synth_sequencer::Signal::new` (`language` crate lines 668-677):
`step_index` is `sequence.len() - 1` in `usize` arithmetic, which
underflows (a panic in debug builds, and an out-of-range index either
way) for an empty sequence; the failure is modelled as `none`. -/
def seqNew (sequence : List SeqStep) : Option SeqState :=
  if sequence.length = 0 then none
  else some { stepIndex := sequence.length - 1, gateRemainSeconds := 0 }

/-- Output sample of the sequencer (`OutputSample`, lines 679-683). -/
structure SeqOutput where
  frequencyHz : ℚ
  gate : Bool
deriving DecidableEq

/-- `synth_sequencer::Signal::sample` (`language` crate lines 690-705):
on a clock pulse the index advances by one modulo the length and the
countdown is latched to the new step's period; every tick the countdown
is decremented by `1/sample_rate`; the gate is the sign test
`gate_remain_seconds >= 0.0` after the decrement; the frequency is the
current step's frequency. -/
def seqSample (sequence : List SeqStep) (clock : Bool) (r : ℚ)
    (st : SeqState) : SeqState × SeqOutput :=
  let pulsed : Nat × ℚ :=
    if clock then
      let i := (st.stepIndex + 1) % sequence.length
      (i, (sequence.getD i defaultSeqStep).periodSeconds)
    else
      (st.stepIndex, st.gateRemainSeconds)
  let remain := pulsed.2 - 1 / r
  ({ stepIndex := pulsed.1, gateRemainSeconds := remain },
   { frequencyHz := (sequence.getD pulsed.1 defaultSeqStep).frequencyHz,
     gate := decide (0 ≤ remain) })

/-- The sequencer state before tick `n`, driven by the clock stream. -/
def seqStateAt (sequence : List SeqStep) (clock : Nat → Bool) (r : ℚ)
    (st0 : SeqState) : Nat → SeqState
  | 0 => st0
  | n + 1 => (seqSample sequence (clock n) r
      (seqStateAt sequence clock r st0 n)).1

/-- The output produced during tick `n`. -/
def seqOutputAt (sequence : List SeqStep) (clock : Nat → Bool) (r : ℚ)
    (st0 : SeqState) (n : Nat) : SeqOutput :=
  (seqSample sequence (clock n) r (seqStateAt sequence clock r st0 n)).2

/-- Number of clock pulses strictly before tick `n`. -/
def pulseCount (clock : Nat → Bool) : Nat → Nat
  | 0 => 0
  | n + 1 => pulseCount clock n + (if clock n then 1 else 0)

theorem add_one_mod (a m : Nat) : (a % m + 1) % m = (a + 1) % m := by
  conv_lhs => rw [Nat.add_mod]
  conv_rhs => rw [Nat.add_mod]
  rw [Nat.mod_mod_of_dvd a (dvd_refl m)]

theorem seqStateAt_stepIndex (sequence : List SeqStep) (clock : Nat → Bool)
    (r : ℚ) : ∀ n,
    (seqStateAt sequence clock r
        { stepIndex := sequence.length - 1, gateRemainSeconds := 0 }
        n).stepIndex
      = (sequence.length - 1 + pulseCount clock n) % sequence.length := by
  intro n
  induction n with
  | zero =>
    by_cases hlen : sequence.length = 0
    · simp [seqStateAt, pulseCount, hlen]
    · simp [seqStateAt, pulseCount,
        (Nat.mod_eq_of_lt (by omega : sequence.length - 1 < sequence.length))]
  | succ n ih =>
    by_cases hc : clock n
    · simp only [seqStateAt, seqSample, hc, if_true, pulseCount, ih]
      rw [add_one_mod]
      congr 1
    · simp [seqStateAt, seqSample, hc, pulseCount, ih]

theorem seqRemain_after_pulse (sequence : List SeqStep) (clock : Nat → Bool)
    (r : ℚ) (st0 : SeqState) (n : Nat) (hp : clock n = true) :
    ∀ t, (∀ k, 1 ≤ k → k ≤ t → clock (n + k) = false) →
      (seqStateAt sequence clock r st0 (n + t + 1)).gateRemainSeconds
        = (sequence.getD
              (((seqStateAt sequence clock r st0 n).stepIndex + 1)
                % sequence.length)
              defaultSeqStep).periodSeconds
          - ((t : ℚ) + 1) / r := by
  intro t
  induction t with
  | zero =>
    intro _
    simp [seqStateAt, seqSample, hp]
  | succ t ih =>
    intro hnp
    have hlast : clock (n + (t + 1)) = false := hnp (t + 1) (by omega) le_rfl
    have ihh := ih (fun k h1 h2 => hnp k h1 (by omega))
    have hstep : n + (t + 1) + 1 = (n + t + 1) + 1 := by omega
    rw [hstep]
    show (seqSample sequence (clock (n + t + 1)) r
        (seqStateAt sequence clock r st0 (n + t + 1))).1.gateRemainSeconds = _
    have hidx : n + t + 1 = n + (t + 1) := by omega
    rw [hidx] at ihh ⊢
    rw [hlast]
    simp only [seqSample, if_false, Bool.false_eq_true]
    rw [ihh]
    push_cast
    ring

/-- C5: for a non-empty step sequence and positive sample rate, the
sequencer (a) initializes the index to `N-1` so the first pulse lands on
step 0, (b) after `n` ticks the index is `(N-1 + pulses) % N`, visiting
steps in order 0, 1, ..., N-1, 0, ... as pulses arrive, (c) a pulse
latches the countdown to the new step's period and every tick decrements
it by `1/sample_rate`, with the gate true exactly while the decremented
countdown is non-negative and the frequency following the current step
regardless of gate state, and (d) after a pulse entering a step of period
`p`, with no further pulse for `t` ticks, the gate at offset `t` is true
iff `t + 1 ≤ p · r` iff `t < ⌊p · r⌋`, so the gate holds for exactly
`⌊p · r⌋` samples, which is within 1 of `p · r`. -/
theorem C5_sequencer (sequence : List SeqStep) (clock : Nat → Bool) (r : ℚ)
    (hne : sequence ≠ []) (hr : 0 < r) :
    (seqNew sequence
        = some { stepIndex := sequence.length - 1, gateRemainSeconds := 0 }) ∧
    (∀ n, (seqStateAt sequence clock r
          { stepIndex := sequence.length - 1, gateRemainSeconds := 0 }
          n).stepIndex
        = (sequence.length - 1 + pulseCount clock n) % sequence.length) ∧
    (∀ st : SeqState,
      ((seqSample sequence true r st).1.stepIndex
          = (st.stepIndex + 1) % sequence.length) ∧
      ((seqSample sequence false r st).1.stepIndex = st.stepIndex) ∧
      ((seqSample sequence true r st).1.gateRemainSeconds
          = (sequence.getD ((st.stepIndex + 1) % sequence.length)
              defaultSeqStep).periodSeconds - 1 / r) ∧
      ((seqSample sequence false r st).1.gateRemainSeconds
          = st.gateRemainSeconds - 1 / r) ∧
      (∀ b : Bool, (seqSample sequence b r st).2.gate
          = decide (0 ≤ (seqSample sequence b r st).1.gateRemainSeconds)) ∧
      (∀ b : Bool, (seqSample sequence b r st).2.frequencyHz
          = (sequence.getD (seqSample sequence b r st).1.stepIndex
              defaultSeqStep).frequencyHz)) ∧
    (∀ (st0 : SeqState) (n t : Nat), clock n = true →
      (∀ k, 1 ≤ k → k ≤ t → clock (n + k) = false) →
      (((seqOutputAt sequence clock r st0 (n + t)).gate = true ↔
        ((t : ℚ) + 1
            ≤ (sequence.getD
                (((seqStateAt sequence clock r st0 n).stepIndex + 1)
                  % sequence.length) defaultSeqStep).periodSeconds * r)) ∧
       ((seqOutputAt sequence clock r st0 (n + t)).gate = true ↔
        ((t : ℤ)
            < Int.floor ((sequence.getD
                (((seqStateAt sequence clock r st0 n).stepIndex + 1)
                  % sequence.length) defaultSeqStep).periodSeconds * r))))) ∧
    (∀ i : Nat,
      (sequence.getD i defaultSeqStep).periodSeconds * r - 1
          ≤ (Int.floor ((sequence.getD i defaultSeqStep).periodSeconds * r) : ℚ) ∧
      (Int.floor ((sequence.getD i defaultSeqStep).periodSeconds * r) : ℚ)
          ≤ (sequence.getD i defaultSeqStep).periodSeconds * r) := by
  have hlen : sequence.length ≠ 0 := by
    simpa [List.length_eq_zero] using hne
  refine ⟨by simp [seqNew, hlen], seqStateAt_stepIndex sequence clock r,
    ?_, ?_, ?_⟩
  · intro st
    refine ⟨by simp [seqSample], by simp [seqSample], by simp [seqSample],
      by simp [seqSample], ?_, ?_⟩
    · intro b
      cases b <;> simp [seqSample]
    · intro b
      cases b <;> simp [seqSample]
  · intro st0 n t hp hnp
    have hrem := seqRemain_after_pulse sequence clock r st0 n hp t hnp
    set p := (sequence.getD
        (((seqStateAt sequence clock r st0 n).stepIndex + 1)
          % sequence.length) defaultSeqStep).periodSeconds with hpdef
    have hgate : (seqOutputAt sequence clock r st0 (n + t)).gate
        = decide (0 ≤ (seqStateAt sequence clock r st0 (n + t + 1)).gateRemainSeconds) := by
      show (seqSample sequence (clock (n + t)) r
          (seqStateAt sequence clock r st0 (n + t))).2.gate = _
      simp [seqSample, seqStateAt]
    have hchain : (seqOutputAt sequence clock r st0 (n + t)).gate = true ↔
        ((t : ℚ) + 1 ≤ p * r) := by
      rw [hgate, hrem, decide_eq_true_iff]
      rw [sub_nonneg, div_le_iff₀ hr]
    refine ⟨hchain, hchain.trans ?_⟩
    rw [show ((t : ℚ) + 1) = ((t + 1 : ℤ) : ℚ) by push_cast; ring]
    exact ⟨fun h => Int.add_one_le_iff.mp (Int.le_floor.mpr h),
           fun h => Int.le_floor.mp (Int.add_one_le_iff.mpr h)⟩
  · intro i
    exact ⟨le_of_lt (Int.sub_one_lt_floor _), Int.floor_le _⟩

/-- Concrete two-step sequence used as a witness. -/
def c5Sequence : List SeqStep :=
  [{ frequencyHz := 440, periodSeconds := 1 },
   { frequencyHz := 550, periodSeconds := 2 }]

/-- A clock that pulses every 4 ticks. -/
def c5Clock : Nat → Bool :=
  fun n => decide (n % 4 = 0)

theorem C5_sequencer_witness :
    c5Sequence ≠ [] ∧ (0 : ℚ) < 2 ∧
    seqNew c5Sequence
      = some { stepIndex := c5Sequence.length - 1, gateRemainSeconds := 0 } ∧
    (seqStateAt c5Sequence c5Clock 2
        { stepIndex := c5Sequence.length - 1, gateRemainSeconds := 0 }
        1).stepIndex
      = (c5Sequence.length - 1 + pulseCount c5Clock 1) % c5Sequence.length :=
  ⟨by simp [c5Sequence], by norm_num,
   (C5_sequencer c5Sequence c5Clock 2 (by simp [c5Sequence]) (by norm_num)).1,
   (C5_sequencer c5Sequence c5Clock 2 (by simp [c5Sequence])
      (by norm_num)).2.1 1⟩

/-- C8: `synth_sequencer::Signal::new` evaluates `sequence.len() - 1` in
unsigned arithmetic, so construction from an empty sequence fails
(modelled as `none`; in Rust the `usize` underflow panics in debug builds
and in any build the sequencer is unusable since every `sample` would
index out of bounds / take `% 0`); for every non-empty sequence the
initial index `len - 1` is in bounds and every `sample` keeps the index
strictly below the sequence length. -/
theorem C8_sequencer_nonempty (sequence : List SeqStep) (clock : Bool)
    (r : ℚ) (st : SeqState) :
    (seqNew [] = none) ∧
    (sequence ≠ [] →
      seqNew sequence
          = some { stepIndex := sequence.length - 1, gateRemainSeconds := 0 } ∧
      sequence.length - 1 < sequence.length) ∧
    (sequence ≠ [] → st.stepIndex < sequence.length →
      (seqSample sequence clock r st).1.stepIndex < sequence.length) := by
  refine ⟨by simp [seqNew], ?_, ?_⟩
  · intro hne
    have hlen : sequence.length ≠ 0 := by
      simpa [List.length_eq_zero] using hne
    exact ⟨by simp [seqNew, hlen], by omega⟩
  · intro hne hidx
    have hlen : sequence.length ≠ 0 := by
      simpa [List.length_eq_zero] using hne
    cases clock
    · simpa [seqSample] using hidx
    · simp only [seqSample, if_true]
      exact Nat.mod_lt _ (by omega)

theorem C8_sequencer_nonempty_witness :
    seqNew [] = none ∧ c5Sequence ≠ [] ∧
    ({ stepIndex := 0, gateRemainSeconds := 0 } : SeqState).stepIndex
      < c5Sequence.length ∧
    (seqSample c5Sequence true 2
        { stepIndex := 0, gateRemainSeconds := 0 }).1.stepIndex
      < c5Sequence.length :=
  ⟨(C8_sequencer_nonempty c5Sequence true 2
      { stepIndex := 0, gateRemainSeconds := 0 }).1,
   by simp [c5Sequence],
   by simp [c5Sequence],
   (C8_sequencer_nonempty c5Sequence true 2
      { stepIndex := 0, gateRemainSeconds := 0 }).2.2
      (by simp [c5Sequence]) (by simp [c5Sequence])⟩

/-- The `while self.buffer.len() >= width` pop-front loop of
`moving_average_low_pass_filter_::Signal::sample`
(`synth-language/src/synth_modules.rs` lines 309-311). -/
def popFrontWhile (width : Nat) : List ℚ → List ℚ
  | [] => []
  | x :: xs =>
    if width ≤ xs.length + 1 then popFrontWhile width xs else x :: xs

/-- One tick of the moving-average low-pass buffer update
(`synth_modules.rs` lines 306-312): the source computes
`width = self.props.width.sample(ctx) as usize + 1`, pops from the front
while the buffer has at least that many elements, then pushes the current
input sample. -/
def movingAverageStep (w : Nat) (x : ℚ) (buf : List ℚ) : List ℚ :=
  popFrontWhile (w + 1) buf ++ [x]

/-- The output of the low-pass filter: the arithmetic mean of the buffer
(`synth_modules.rs` lines 313-314). -/
def movingAverageOut (buf : List ℚ) : ℚ :=
  buf.sum / (buf.length : ℚ)

/-- The buffer contents after ticks `0..n` with width signal `width` and
input signal `x`. -/
def maBuf (width : Nat → Nat) (x : Nat → ℚ) : Nat → List ℚ
  | 0 => movingAverageStep (width 0) (x 0) []
  | n + 1 => movingAverageStep (width (n + 1)) (x (n + 1)) (maBuf width x n)

/-- The low-pass output at tick `n`. -/
def maLowPassOut (width : Nat → Nat) (x : Nat → ℚ) (n : Nat) : ℚ :=
  movingAverageOut (maBuf width x n)

/-- `moving_average_high_pass_filter::Signal::sample` (`synth_modules.rs`
lines 355-359): the input re-sample after the low pass returns the
same-tick cached value from the shared handle, so the output is the
current input minus the low-pass output. -/
def maHighPassOut (width : Nat → Nat) (x : Nat → ℚ) (n : Nat) : ℚ :=
  x n - maLowPassOut width x n

/-- Modelled from the spec's words for comparison (claim C7): the
arithmetic mean of "a FIFO window containing exactly the last w input
samples (fewer during warm-up)". -/
def specMovingAverageOut (w : Nat) (x : Nat → ℚ) (n : Nat) : ℚ :=
  let window := ((List.range (n + 1)).map x).drop (n + 1 - w)
  window.sum / (window.length : ℚ)

theorem popFrontWhile_eq_drop (w : Nat) :
    ∀ l : List ℚ, l.length ≤ w + 1 →
      popFrontWhile (w + 1) l = l.drop (l.length - w) := by
  intro l
  induction l with
  | nil => intro _; simp [popFrontWhile]
  | cons a xs ih =>
    intro hlen
    simp only [List.length_cons] at hlen
    by_cases hw : w + 1 ≤ xs.length + 1
    · have hxs : xs.length = w := by omega
      rw [popFrontWhile, if_pos hw, ih (by omega)]
      simp [hxs]
    · rw [popFrontWhile, if_neg hw]
      have h0 : xs.length + 1 - w = 0 := by omega
      simp [h0]

theorem maBuf_const_width (w : Nat) (x : Nat → ℚ) :
    ∀ n, maBuf (fun _ => w) x n
      = ((List.range (n + 1)).map x).drop (n - w) := by
  intro n
  induction n with
  | zero => simp [maBuf, movingAverageStep, popFrontWhile, List.range_succ]
  | succ n ih =>
    have hlen : (maBuf (fun _ => w) x n).length ≤ w + 1 := by
      rw [ih]
      simp only [List.length_drop, List.length_map, List.length_range]
      omega
    show movingAverageStep w (x (n + 1)) (maBuf (fun _ => w) x n) = _
    rw [movingAverageStep, popFrontWhile_eq_drop w _ hlen, ih]
    rw [List.length_drop, List.drop_drop]
    simp only [List.length_map, List.length_range]
    conv_rhs => rw [List.range_succ, List.map_append, List.map_cons,
      List.map_nil]
    rw [List.drop_append_of_le_length
      (by simp only [List.length_map, List.length_range]; omega)]
    congr 2
    omega

/-- C7 (amended): with a constant width signal `w`, the moving-average
low-pass buffer at tick `n` holds exactly the last `min (n+1) (w+1)`
input samples — the window is one LARGER than the sampled width, because
the source computes `width.sample() + 1` — the output is their arithmetic
mean, and the high-pass output is the current input minus the low-pass
output of the same input. -/
theorem C7_moving_average (w : Nat) (x : Nat → ℚ) (n : Nat) :
    (maBuf (fun _ => w) x n = ((List.range (n + 1)).map x).drop (n - w)) ∧
    ((maBuf (fun _ => w) x n).length = min (n + 1) (w + 1)) ∧
    (maLowPassOut (fun _ => w) x n
        = (maBuf (fun _ => w) x n).sum
            / ((maBuf (fun _ => w) x n).length : ℚ)) ∧
    (maHighPassOut (fun _ => w) x n = x n - maLowPassOut (fun _ => w) x n) := by
  refine ⟨maBuf_const_width w x n, ?_, rfl, rfl⟩
  rw [maBuf_const_width w x n]
  simp only [List.length_drop, List.length_map, List.length_range]
  omega

/-- C7 counterexample to the claim as stated: with width signal
constantly 1 and inputs 0, 2, 4, ..., the low-pass output at tick 1 is
the mean of the last TWO samples, `(0 + 2) / 2 = 1`, not the mean of the
last `w = 1` samples, which would be 2. -/
theorem C7_counterexample :
    maLowPassOut (fun _ => 1) (fun n => 2 * (n : ℚ)) 1 = 1 ∧
    specMovingAverageOut 1 (fun n => 2 * (n : ℚ)) 1 = 2 ∧
    (1 : ℚ) ≠ 2 := by
  refine ⟨?_, ?_, by norm_num⟩
  · show movingAverageOut
      (movingAverageStep 1 (2 * (1 : ℚ))
        (movingAverageStep 1 (2 * (0 : ℚ)) [])) = 1
    norm_num [movingAverageStep, popFrontWhile, movingAverageOut]
  · show (((List.range 2).map (fun n => 2 * (n : ℚ))).drop (2 - 1)).sum
        / ((((List.range 2).map (fun n => 2 * (n : ℚ))).drop (2 - 1)).length : ℚ)
      = 2
    norm_num [List.range_succ]

/-- One second-order section state (`biquad_filter::BufferEntry`,
`synth_modules.rs`): coefficients `a, d1, d2` and history `w0, w1, w2`. -/
structure BiquadEntry where
  a : ℝ
  d1 : ℝ
  d2 : ℝ
  w0 : ℝ
  w1 : ℝ
  w2 : ℝ

/-- `BufferEntry::default()`: all fields zero. -/
def biquadEntry0 : BiquadEntry :=
  { a := 0, d1 := 0, d2 := 0, w0 := 0, w1 := 0, w2 := 0 }

/-- `Buffer::apply_low_pass` (`synth-language/src/synth_modules.rs` lines
468-476, identical in the `language` crate): per section,
`w0 = d1*w1 + d2*w2 + x`, output `a*(w0 + 2*w1 + w2)` (PLUS sign), then
shift `w2 <- w1, w1 <- w0`; the output is cascaded into the next
section. -/
def applyLowPass : List BiquadEntry → ℝ → List BiquadEntry × ℝ
  | [], x => ([], x)
  | e :: es, x =>
    let w0 := e.d1 * e.w1 + e.d2 * e.w2 + x
    let y := e.a * (w0 + 2 * e.w1 + e.w2)
    let rest := applyLowPass es y
    ({ e with w0 := w0, w2 := e.w1, w1 := w0 } :: rest.1, rest.2)

/-- `Buffer::apply_high_pass` (lines 478-486): the same recurrence with
the MINUS sign, `a*(w0 - 2*w1 + w2)`. -/
def applyHighPass : List BiquadEntry → ℝ → List BiquadEntry × ℝ
  | [], x => ([], x)
  | e :: es, x =>
    let w0 := e.d1 * e.w1 + e.d2 * e.w2 + x
    let y := e.a * (w0 - 2 * e.w1 + e.w2)
    let rest := applyHighPass es y
    ({ e with w0 := w0, w2 := e.w1, w1 := w0 } :: rest.1, rest.2)

/-- The `for (i, entry) in buffer.entries.iter_mut().enumerate()` loop of
the `update_entries` implementations. -/
def updateEntriesFrom (upd : Nat → BiquadEntry → BiquadEntry) :
    Nat → List BiquadEntry → List BiquadEntry
  | _, [] => []
  | i, e :: es => upd i e :: updateEntriesFrom upd (i + 1) es

/-- The per-entry coefficient update of
`butterworth::high_pass::UpdateBuffer::update_entries` (identical formula
in both crates, `synth-language` lines 585-596 and `language` lines
399-414): `r = sin(pi*(2i+1)/(4n))`, `s = a^2 + 2ar + 1`, `a := 1/s`,
`d1 := 2(1-a^2)/s`, `d2 := -(a^2 - 2ar + 1)/s`. -/
noncomputable def butterHighPassEntryUpdate (a n : ℝ) (i : Nat)
    (e : BiquadEntry) : BiquadEntry :=
  let a2 := a * a
  let r := Real.sin (Real.pi * (2 * (i : ℝ) + 1) / (4 * n))
  let s := a2 + 2 * a * r + 1
  { e with a := 1 / s, d1 := 2 * (1 - a2) / s, d2 := -(a2 - 2 * a * r + 1) / s }

/-- `butterworth::high_pass::Signal::sample` of the `synth-language`
crate (`synth_modules.rs` lines 599-605 with the shared `sample` driver,
lines 534-542): `a = tan(pi * half_power_frequency / 2)`, empty buffer
passes the input through, and — this is the slip the claim is about — the
pass applied is `sample::<UpdateBuffer, LowPass>`, i.e. `apply_low_pass`
with the PLUS sign, even though this is the high-pass module. -/
noncomputable def synthButterHighPassSample (f : ℝ) (es : List BiquadEntry)
    (x : ℝ) : List BiquadEntry × ℝ :=
  if es.isEmpty then (es, x)
  else
    let a := Real.tan (Real.pi * f / 2)
    let es2 := updateEntriesFrom
      (butterHighPassEntryUpdate a (es.length : ℝ)) 0 es
    applyLowPass es2 x

/-- `butterworth::high_pass::Signal::sample` of the `language` crate
(`synth_modules.rs` lines 417-423 with the driver, lines 344-354):
`a = tan(pi * (half_power_frequency_hz / sample_rate))` and the pass is
`sample::<UpdateBuffer, HighPass>`, i.e. `apply_high_pass` with the MINUS
sign. -/
noncomputable def langButterHighPassSample (fHz r : ℝ)
    (es : List BiquadEntry) (x : ℝ) : List BiquadEntry × ℝ :=
  if es.isEmpty then (es, x)
  else
    let a := Real.tan (Real.pi * (fHz / r))
    let es2 := updateEntriesFrom
      (butterHighPassEntryUpdate a (es.length : ℝ)) 0 es
    applyHighPass es2 x

/-- Output of two consecutive ticks of the `synth-language` butterworth
high-pass with one section, inputs `x1` then `x2`. -/
noncomputable def synthButterHPTwoTicks (f x1 x2 : ℝ) : ℝ :=
  (synthButterHighPassSample f
    (synthButterHighPassSample f [biquadEntry0] x1).1 x2).2

/-- Output of two consecutive ticks of the `language` butterworth
high-pass with one section. -/
noncomputable def langButterHPTwoTicks (fHz r x1 x2 : ℝ) : ℝ :=
  (langButterHighPassSample fHz r
    (langButterHighPassSample fHz r [biquadEntry0] x1).1 x2).2

theorem synthButterHP_single (f x : ℝ) (e : BiquadEntry) :
    synthButterHighPassSample f [e] x
      = (let a := Real.tan (Real.pi * f / 2)
         let e2 := butterHighPassEntryUpdate a 1 0 e
         let w0 := e2.d1 * e2.w1 + e2.d2 * e2.w2 + x
         ([{ e2 with w0 := w0, w2 := e2.w1, w1 := w0 }],
          e2.a * (w0 + 2 * e2.w1 + e2.w2))) := by
  simp [synthButterHighPassSample, updateEntriesFrom, applyLowPass]

theorem langButterHP_single (fHz r x : ℝ) (e : BiquadEntry) :
    langButterHighPassSample fHz r [e] x
      = (let a := Real.tan (Real.pi * (fHz / r))
         let e2 := butterHighPassEntryUpdate a 1 0 e
         let w0 := e2.d1 * e2.w1 + e2.d2 * e2.w2 + x
         ([{ e2 with w0 := w0, w2 := e2.w1, w1 := w0 }],
          e2.a * (w0 - 2 * e2.w1 + e2.w2))) := by
  simp [langButterHighPassSample, updateEntriesFrom, applyHighPass]

theorem butterHP_update_one (e : BiquadEntry) :
    butterHighPassEntryUpdate 1 1 0 e
      = { e with
          a := 1 / (2 + Real.sqrt 2)
          d1 := 0
          d2 := -((2 : ℝ) - Real.sqrt 2) / (2 + Real.sqrt 2) } := by
  simp only [butterHighPassEntryUpdate]
  have harg : Real.pi * (2 * ((0 : Nat) : ℝ) + 1) / (4 * 1) = Real.pi / 4 := by
    push_cast
    ring
  rw [harg, Real.sin_pi_div_four]
  rw [show (1 : ℝ) * 1 + 2 * 1 * (Real.sqrt 2 / 2) + 1 = 2 + Real.sqrt 2 by
    ring]
  rw [show -((1 : ℝ) * 1 - 2 * 1 * (Real.sqrt 2 / 2) + 1)
      = -((2 : ℝ) - Real.sqrt 2) by ring]
  rw [show (2 : ℝ) * (1 - 1 * 1) = 0 by ring, zero_div]

/-- C3: the claim holds for the `language` crate — its butterworth
high-pass applies the minus-sign recurrence `a*(w0 - 2*w1 + w2)` — but it
is violated by the `synth-language` crate, whose
`butterworth::high_pass::Signal::sample` (line 603; likewise chebyshev
high-pass, line 715) instantiates the shared driver with `LowPass`, so it
applies the PLUS-sign recurrence.  Concretely, with one section,
half-power frequency ratio 1/4 (so `a = tan(pi/4) = 1`), and inputs 1
then 0, the second tick outputs `2/(2+sqrt 2)` in `synth-language` where
the minus-sign recurrence (and the `language` crate) gives
`-(2/(2+sqrt 2))`. -/
theorem C3_high_pass_sign :
    synthButterHPTwoTicks (1 / 2) 1 0 = 2 / (2 + Real.sqrt 2) ∧
    langButterHPTwoTicks 1 4 1 0 = -(2 / (2 + Real.sqrt 2)) ∧
    synthButterHPTwoTicks (1 / 2) 1 0 ≠ langButterHPTwoTicks 1 4 1 0 := by
  have htanS : Real.tan (Real.pi * (1 / 2) / 2) = 1 := by
    rw [show Real.pi * ((1 : ℝ) / 2) / 2 = Real.pi / 4 by ring,
      Real.tan_pi_div_four]
  have htanL : Real.tan (Real.pi * ((1 : ℝ) / 4)) = 1 := by
    rw [show Real.pi * ((1 : ℝ) / 4) = Real.pi / 4 by ring,
      Real.tan_pi_div_four]
  have hsqrt2 : (0 : ℝ) ≤ Real.sqrt 2 := Real.sqrt_nonneg 2
  have hspos : (0 : ℝ) < 2 + Real.sqrt 2 := by linarith
  have hval : (0 : ℝ) < 2 / (2 + Real.sqrt 2) := by positivity
  -- the entry state after the first tick, shared by both crates
  set E1 : BiquadEntry :=
    { a := 1 / (2 + Real.sqrt 2)
      d1 := 0
      d2 := -((2 : ℝ) - Real.sqrt 2) / (2 + Real.sqrt 2)
      w0 := 1
      w1 := 1
      w2 := 0 } with hE1
  have hsynth1 : (synthButterHighPassSample (1 / 2) [biquadEntry0] 1).1
      = [E1] := by
    rw [synthButterHP_single]
    simp only [htanS, butterHP_update_one, biquadEntry0, hE1]
    norm_num
  have hlang1 : (langButterHighPassSample 1 4 [biquadEntry0] 1).1 = [E1] := by
    rw [langButterHP_single]
    simp only [show (1 : ℝ) / 4 = ((1 : ℝ) / 4) from rfl]
    simp only [htanL, butterHP_update_one, biquadEntry0, hE1]
    norm_num
  have hsynth2 : synthButterHPTwoTicks (1 / 2) 1 0 = 2 / (2 + Real.sqrt 2) := by
    rw [synthButterHPTwoTicks, hsynth1, synthButterHP_single]
    simp only [htanS, butterHP_update_one, hE1]
    norm_num
    ring
  have hlang2 : langButterHPTwoTicks 1 4 1 0 = -(2 / (2 + Real.sqrt 2)) := by
    rw [langButterHPTwoTicks, hlang1, langButterHP_single]
    simp only [htanL, butterHP_update_one, hE1]
    norm_num
    ring
  refine ⟨hsynth2, hlang2, ?_⟩
  rw [hsynth2, hlang2]
  intro heq
  linarith

/-- `asr_envelope_lin_01::Signal::sample`
(`synth-language/src/synth_modules.rs` lines 179-187, identical in the
`language` crate): one tick of the linear ASR envelope on the current
value `c`; `clamp(0.0, 1.0)` is `max 0 (min 1 _)`. -/
noncomputable def asrLin01Step (gate : Bool) (attackSeconds releaseSeconds r c : ℝ) : ℝ :=
  let delta :=
    if gate then 1 / (attackSeconds * r) else -1 / (releaseSeconds * r)
  max 0 (min 1 (c + delta))

/-- The linear ASR value after `n` ticks (initial value 0); the output at
tick `n` is the value after `n + 1` ticks. -/
noncomputable def asrLinRun (gate : Nat → Bool) (attack release : Nat → ℝ)
    (r : ℝ) : Nat → ℝ
  | 0 => 0
  | n + 1 => asrLin01Step (gate n) (attack n) (release n) r
      (asrLinRun gate attack release r n)

/-- Private state of `adsr_envelope_lin_01::Signal` (`language` crate
lines 202-206). -/
structure AdsrLinState where
  currentValue : ℝ
  crossedThreshold : Bool

/-- `adsr_envelope_lin_01::Signal::sample` (`language` crate lines
219-243). -/
noncomputable def adsrLin01Step (gate : Bool)
    (attack decay sustain release r : ℝ) (st : AdsrLinState) :
    AdsrLinState :=
  if gate then
    if st.crossedThreshold then
      { st with
        currentValue := max (st.currentValue - 1 / (decay * r)) sustain }
    else
      let c := min (st.currentValue + 1 / (attack * r)) 1
      { currentValue := c
        crossedThreshold := if c = 1 then true else st.crossedThreshold }
  else
    { currentValue := max (st.currentValue - 1 / (release * r)) 0
      crossedThreshold := false }

/-- The linear ADSR state after `n` ticks. -/
noncomputable def adsrLinRun (gate : Nat → Bool)
    (attack decay sustain release : Nat → ℝ) (r : ℝ) : Nat → AdsrLinState
  | 0 => { currentValue := 0, crossedThreshold := false }
  | n + 1 => adsrLin01Step (gate n) (attack n) (decay n) (sustain n)
      (release n) r (adsrLinRun gate attack decay sustain release r n)

/-- `ATTACK_ASYMPTOTE` (`synth-language` crate line 217). -/
noncomputable def attackAsymptote : ℝ := 1.5

/-- `attack_gradient_factor_numerator` (`synth-language` crate line
227). -/
noncomputable def attackGradientFactorNumerator : ℝ :=
  -Real.log (1 - 1 / attackAsymptote)

/-- `decay_release_gradient_factor_numerator` with
`DECAY_RELEASE_EPSILON = 1/64` (`synth-language` crate lines 218,
228). -/
noncomputable def decayReleaseGradientFactorNumerator : ℝ :=
  -Real.log (1 / 64)

/-- Private state of `adsr_envelope_exp_01::Signal` (`synth-language`
crate lines 208-215). -/
structure AdsrExpState where
  inAttack : Bool
  prevGate : Bool
  currentValue : ℝ

/-- `adsr_envelope_exp_01::Signal::sample` (`synth-language` crate lines
256-272, with the delta helpers at lines 232-252).  Note the value is
capped above by `min _ 1` but has NO lower clamp. -/
noncomputable def adsrExpStep (gate : Bool)
    (attack decay sustain release r : ℝ) (st : AdsrExpState) :
    AdsrExpState :=
  let inAttack : Bool :=
    if st.currentValue ≠ 1 then gate && (st.inAttack || !st.prevGate)
    else false
  let delta :=
    if gate then
      if inAttack then
        attackGradientFactorNumerator / attack
          * (attackAsymptote - st.currentValue) / r
      else
        -(decayReleaseGradientFactorNumerator / decay)
          * max (st.currentValue - sustain) 0 / r
    else
      -(decayReleaseGradientFactorNumerator / release) * st.currentValue / r
  { inAttack := inAttack
    prevGate := gate
    currentValue := min (st.currentValue + delta) 1 }

/-- The exponential ADSR state after `n` ticks. -/
noncomputable def adsrExpRun (gate : Nat → Bool)
    (attack decay sustain release : Nat → ℝ) (r : ℝ) : Nat → AdsrExpState
  | 0 => { inAttack := false, prevGate := false, currentValue := 0 }
  | n + 1 => adsrExpStep (gate n) (attack n) (decay n) (sustain n)
      (release n) r (adsrExpRun gate attack decay sustain release r n)

theorem attackNumerator_eq : attackGradientFactorNumerator = Real.log 3 := by
  unfold attackGradientFactorNumerator attackAsymptote
  rw [show (1 : ℝ) - 1 / 1.5 = 1 / 3 by norm_num, one_div, Real.log_inv]
  ring

theorem decayReleaseNumerator_eq :
    decayReleaseGradientFactorNumerator = Real.log 64 := by
  unfold decayReleaseGradientFactorNumerator
  rw [one_div, Real.log_inv]
  ring

theorem log64_pos : (0 : ℝ) < Real.log 64 :=
  Real.log_pos (by norm_num)

theorem attackNumerator_pos : (0 : ℝ) < attackGradientFactorNumerator := by
  rw [attackNumerator_eq]
  exact Real.log_pos (by norm_num)

theorem one_le_attackAsymptote : (1 : ℝ) ≤ attackAsymptote := by
  unfold attackAsymptote
  norm_num

theorem asrLin01Step_bounds (gate : Bool) (attack release r c : ℝ) :
    0 ≤ asrLin01Step gate attack release r c ∧
    asrLin01Step gate attack release r c ≤ 1 := by
  unfold asrLin01Step
  exact ⟨le_max_left 0 _, max_le zero_le_one (min_le_left 1 _)⟩

theorem asrLin01Step_mono (attack release r c : ℝ) (hrel : 0 < release)
    (hr : 0 < r) (hc0 : 0 ≤ c) (hc1 : c ≤ 1) :
    asrLin01Step false attack release r c ≤ c := by
  unfold asrLin01Step
  have hdelta : -1 / (release * r) ≤ 0 := by
    apply div_nonpos_of_nonpos_of_nonneg (by norm_num)
    positivity
  simp only [Bool.false_eq_true, if_false]
  calc max 0 (min 1 (c + -1 / (release * r)))
      ≤ max 0 (min 1 c) := by
        apply max_le_max le_rfl
        apply min_le_min le_rfl
        linarith
    _ = c := by
        rw [min_eq_right hc1, max_eq_right hc0]

theorem adsrLin01Step_bounds (gate : Bool)
    (attack decay sustain release r : ℝ) (st : AdsrLinState)
    (ha : 0 < attack) (hd : 0 < decay) (hrel : 0 < release) (hr : 0 < r)
    (hs0 : 0 ≤ sustain) (hs1 : sustain ≤ 1)
    (hc0 : 0 ≤ st.currentValue) (hc1 : st.currentValue ≤ 1) :
    (0 ≤ (adsrLin01Step gate attack decay sustain release r st).currentValue ∧
      (adsrLin01Step gate attack decay sustain release r st).currentValue ≤ 1) ∧
    (gate = false →
      (adsrLin01Step gate attack decay sustain release r st).currentValue
        ≤ st.currentValue) := by
  unfold adsrLin01Step
  cases gate with
  | false =>
    simp only [Bool.false_eq_true, if_false]
    have hpos : 0 ≤ 1 / (release * r) := by positivity
    refine ⟨⟨le_max_right _ _, max_le (by linarith) zero_le_one⟩, ?_⟩
    intro _
    exact max_le (by linarith) hc0
  | true =>
    simp only [if_true]
    cases hcr : st.crossedThreshold with
    | true =>
      simp only [if_true]
      have hpos : 0 ≤ 1 / (decay * r) := by positivity
      exact ⟨⟨le_trans hs0 (le_max_right _ _),
        max_le (by linarith) hs1⟩, by simp⟩
    | false =>
      simp only [Bool.false_eq_true, if_false]
      have hpos : 0 ≤ 1 / (attack * r) := by positivity
      exact ⟨⟨le_min (by linarith) zero_le_one, min_le_right _ _⟩, by simp⟩

theorem adsrExpStep_bounds (gate : Bool)
    (attack decay sustain release r : ℝ) (st : AdsrExpState)
    (ha : 0 < attack) (hd : 0 < decay) (hrel : 0 < release) (hr : 0 < r)
    (hs0 : 0 ≤ sustain) (hs1 : sustain ≤ 1)
    (hdf : Real.log 64 ≤ decay * r) (hrf : Real.log 64 ≤ release * r)
    (hc0 : 0 ≤ st.currentValue) (hc1 : st.currentValue ≤ 1) :
    (0 ≤ (adsrExpStep gate attack decay sustain release r st).currentValue ∧
      (adsrExpStep gate attack decay sustain release r st).currentValue ≤ 1) ∧
    (gate = false →
      (adsrExpStep gate attack decay sustain release r st).currentValue
        ≤ st.currentValue) := by
  unfold adsrExpStep
  set c := st.currentValue with hc
  cases gate with
  | false =>
    simp only [Bool.false_eq_true, if_false, Bool.false_and,
      Bool.and_false]
    rw [decayReleaseNumerator_eq]
    have heq : -(Real.log 64 / release) * c / r
        = -(Real.log 64 * c / (release * r)) := by ring
    rw [heq]
    set β := Real.log 64 * c / (release * r) with hβ
    have hβ0 : 0 ≤ β := by
      apply div_nonneg (mul_nonneg log64_pos.le hc0)
      positivity
    have hβc : β ≤ c := by
      rw [hβ, div_le_iff₀ (by positivity : (0 : ℝ) < release * r)]
      nlinarith [hrf, hc0]
    have hbody : (if st.currentValue ≠ 1 then false && (st.inAttack || !st.prevGate)
        else false) = false := by
      split <;> simp
    constructor
    · constructor
      · exact le_min (by linarith) zero_le_one
      · exact min_le_right _ _
    · intro _
      exact le_trans (min_le_left _ _) (by linarith)
  | true =>
    simp only [if_true]
    cases hin : (if st.currentValue ≠ 1 then true && (st.inAttack || !st.prevGate)
        else false) with
    | true =>
      simp only [hin, if_true]
      have hδ : 0 ≤ attackGradientFactorNumerator / attack
          * (attackAsymptote - c) / r := by
        apply div_nonneg _ hr.le
        apply mul_nonneg (div_nonneg attackNumerator_pos.le ha.le)
        have := one_le_attackAsymptote
        linarith
      exact ⟨⟨le_min (by linarith) zero_le_one, min_le_right _ _⟩,
        by simp⟩
    | false =>
      simp only [hin, Bool.false_eq_true, if_false]
      rw [decayReleaseNumerator_eq]
      have heq : -(Real.log 64 / decay) * max (c - sustain) 0 / r
          = -(Real.log 64 * max (c - sustain) 0 / (decay * r)) := by ring
      rw [heq]
      set m := max (c - sustain) 0 with hm
      have hm0 : 0 ≤ m := le_max_right _ _
      have hmc : m ≤ c := max_le (by linarith) hc0
      set γ := Real.log 64 * m / (decay * r) with hγ
      have hγ0 : 0 ≤ γ := by
        apply div_nonneg (mul_nonneg log64_pos.le hm0)
        positivity
      have hγm : γ ≤ m := by
        rw [hγ, div_le_iff₀ (by positivity : (0 : ℝ) < decay * r)]
        nlinarith [hdf, hm0]
      exact ⟨⟨le_min (by linarith) zero_le_one, min_le_right _ _⟩,
        by simp⟩

/-- C4 (amended): for positive durations, sustain level in [0,1] and a
positive sample rate, the LINEAR envelopes (ASR and ADSR) stay in [0,1]
at every tick and are non-increasing on every tick where the gate is
false.  The EXPONENTIAL ADSR envelope satisfies the same bounds provided
additionally `decay_seconds * sample_rate >= ln 64` and
`release_seconds * sample_rate >= ln 64` (so the per-tick decay fraction
is at most 1); these floors appear only in the exponential conjunct, the
linear properties hold for all strictly positive durations.  Without the
floor the exponential envelope can leave [0,1]: see the
counterexample. -/
theorem C4_envelopes (gate : Nat → Bool)
    (attack decay sustain release : Nat → ℝ) (r : ℝ)
    (hr : 0 < r)
    (ha : ∀ n, 0 < attack n) (hd : ∀ n, 0 < decay n)
    (hrel : ∀ n, 0 < release n)
    (hs0 : ∀ n, 0 ≤ sustain n) (hs1 : ∀ n, sustain n ≤ 1) :
    (∀ n, 0 ≤ asrLinRun gate attack release r n ∧
      asrLinRun gate attack release r n ≤ 1) ∧
    (∀ n, gate n = false →
      asrLinRun gate attack release r (n + 1)
        ≤ asrLinRun gate attack release r n) ∧
    (∀ n, 0 ≤ (adsrLinRun gate attack decay sustain release r n).currentValue ∧
      (adsrLinRun gate attack decay sustain release r n).currentValue ≤ 1) ∧
    (∀ n, gate n = false →
      (adsrLinRun gate attack decay sustain release r (n + 1)).currentValue
        ≤ (adsrLinRun gate attack decay sustain release r n).currentValue) ∧
    ((∀ n, Real.log 64 ≤ decay n * r) →
      (∀ n, Real.log 64 ≤ release n * r) →
      (∀ n,
        0 ≤ (adsrExpRun gate attack decay sustain release r n).currentValue ∧
        (adsrExpRun gate attack decay sustain release r n).currentValue ≤ 1) ∧
      (∀ n, gate n = false →
        (adsrExpRun gate attack decay sustain release r (n + 1)).currentValue
          ≤ (adsrExpRun gate attack decay sustain release r n).currentValue)) := by
  have hasr : ∀ n, 0 ≤ asrLinRun gate attack release r n ∧
      asrLinRun gate attack release r n ≤ 1 := by
    intro n
    cases n with
    | zero => simp [asrLinRun]
    | succ n => exact asrLin01Step_bounds _ _ _ _ _
  have hlin : ∀ n,
      0 ≤ (adsrLinRun gate attack decay sustain release r n).currentValue ∧
      (adsrLinRun gate attack decay sustain release r n).currentValue ≤ 1 := by
    intro n
    induction n with
    | zero => simp [adsrLinRun]
    | succ n ih =>
      exact (adsrLin01Step_bounds (gate n) (attack n) (decay n) (sustain n)
        (release n) r _ (ha n) (hd n) (hrel n) hr (hs0 n) (hs1 n)
        ih.1 ih.2).1
  refine ⟨hasr, ?_, hlin, ?_, ?_⟩
  · intro n hg
    show asrLin01Step (gate n) (attack n) (release n) r
      (asrLinRun gate attack release r n) ≤ _
    rw [hg]
    exact asrLin01Step_mono (attack n) (release n) r _ (hrel n) hr
      (hasr n).1 (hasr n).2
  · intro n hg
    have := (adsrLin01Step_bounds (gate n) (attack n) (decay n) (sustain n)
      (release n) r _ (ha n) (hd n) (hrel n) hr (hs0 n) (hs1 n)
      (hlin n).1 (hlin n).2).2 hg
    exact this
  · intro hdf hrf
    have hexp : ∀ n,
        0 ≤ (adsrExpRun gate attack decay sustain release r n).currentValue ∧
        (adsrExpRun gate attack decay sustain release r n).currentValue ≤ 1 := by
      intro n
      induction n with
      | zero => simp [adsrExpRun]
      | succ n ih =>
        exact (adsrExpStep_bounds (gate n) (attack n) (decay n) (sustain n)
          (release n) r _ (ha n) (hd n) (hrel n) hr (hs0 n) (hs1 n)
          (hdf n) (hrf n) ih.1 ih.2).1
    refine ⟨hexp, ?_⟩
    intro n hg
    have := (adsrExpStep_bounds (gate n) (attack n) (decay n) (sustain n)
      (release n) r _ (ha n) (hd n) (hrel n) hr (hs0 n) (hs1 n)
      (hdf n) (hrf n) (hexp n).1 (hexp n).2).2 hg
    exact this

theorem C4_envelopes_witness :
    (0 : ℝ) < 1 ∧ Real.log 64 ≤ (64 : ℝ) * 1 ∧
    (0 ≤ asrLinRun (fun _ => false) (fun _ => 64) (fun _ => 64) 1 1 ∧
      asrLinRun (fun _ => false) (fun _ => 64) (fun _ => 64) 1 1 ≤ 1) ∧
    (adsrExpRun (fun _ => false) (fun _ => 64) (fun _ => 64) (fun _ => 1 / 2)
        (fun _ => 64) 1 1).currentValue
      ≤ (adsrExpRun (fun _ => false) (fun _ => 64) (fun _ => 64)
        (fun _ => 1 / 2) (fun _ => 64) 1 0).currentValue := by
  have hfloor : Real.log 64 ≤ (64 : ℝ) * 1 := by
    have h1 : Real.log 64 ≤ (64 : ℝ) - 1 :=
      Real.log_le_sub_one_of_pos (by norm_num)
    linarith
  refine ⟨by norm_num, hfloor, ?_, ?_⟩
  · exact (C4_envelopes (fun _ => false) (fun _ => 64) (fun _ => 64)
      (fun _ => 1 / 2) (fun _ => 64) 1 (by norm_num) (fun _ => by norm_num)
      (fun _ => by norm_num) (fun _ => by norm_num) (fun _ => by norm_num)
      (fun _ => by norm_num)).1 1
  · exact ((C4_envelopes (fun _ => false) (fun _ => 64) (fun _ => 64)
      (fun _ => 1 / 2) (fun _ => 64) 1 (by norm_num) (fun _ => by norm_num)
      (fun _ => by norm_num) (fun _ => by norm_num) (fun _ => by norm_num)
      (fun _ => by norm_num)).2.2.2.2 (fun _ => hfloor)
      (fun _ => hfloor)).2 0 rfl

theorem adsrExp_cex_step1 :
    adsrExpStep true (Real.log 3) 1 (1 / 2) (Real.log 64 / 2) 1
      { inAttack := false, prevGate := false, currentValue := 0 }
      = { inAttack := true, prevGate := true, currentValue := 1 } := by
  have hlog3 : Real.log 3 ≠ 0 :=
    ne_of_gt (Real.log_pos (by norm_num))
  unfold adsrExpStep
  simp only [attackNumerator_eq]
  norm_num
  unfold attackAsymptote
  norm_num

theorem adsrExp_cex_step2 :
    adsrExpStep false (Real.log 3) 1 (1 / 2) (Real.log 64 / 2) 1
      { inAttack := true, prevGate := true, currentValue := 1 }
      = { inAttack := false, prevGate := false, currentValue := -1 } := by
  have hlog64 : Real.log 64 ≠ 0 := ne_of_gt log64_pos
  unfold adsrExpStep
  simp only [decayReleaseNumerator_eq]
  norm_num

/-- C4 counterexample to the claim as stated: all durations strictly
positive (attack `ln 3 > 0`, decay `1`, release `ln 64 / 2 > 0`), sustain
`1/2` in [0,1], sample rate 1, gate true on tick 0 and false afterwards.
The attack tick drives the value to exactly 1; the first release tick
computes delta `-(ln 64 / (ln 64 / 2)) * 1 / 1 = -2` and, with no lower
clamp, the output becomes `-1`, outside [0,1]. -/
theorem C4_counterexample :
    (0 : ℝ) < Real.log 3 ∧ (0 : ℝ) < Real.log 64 / 2 ∧
    (adsrExpRun (fun n => n == 0) (fun _ => Real.log 3) (fun _ => 1)
        (fun _ => 1 / 2) (fun _ => Real.log 64 / 2) 1 2).currentValue
      = -1 ∧
    ((adsrExpRun (fun n => n == 0) (fun _ => Real.log 3) (fun _ => 1)
        (fun _ => 1 / 2) (fun _ => Real.log 64 / 2) 1 2).currentValue
      < 0) := by
  have h2 : (adsrExpRun (fun n => n == 0) (fun _ => Real.log 3) (fun _ => 1)
      (fun _ => 1 / 2) (fun _ => Real.log 64 / 2) 1 2).currentValue = -1 := by
    show (adsrExpStep ((1 : Nat) == 0) (Real.log 3) 1 (1 / 2)
      (Real.log 64 / 2) 1
      (adsrExpStep ((0 : Nat) == 0) (Real.log 3) 1 (1 / 2)
        (Real.log 64 / 2) 1
        { inAttack := false, prevGate := false,
          currentValue := 0 })).currentValue = -1
    rw [show ((0 : Nat) == 0) = true from rfl,
      show ((1 : Nat) == 0) = false from rfl,
      adsrExp_cex_step1, adsrExp_cex_step2]
  exact ⟨Real.log_pos (by norm_num), by positivity, h2, by rw [h2]; norm_num⟩
